import Mathlib

/-!
Verification of the reconciliation engine of `src/boilerplate.ts` (the
`runBoilerplate` command of the cig-loop CLI).

The engine is embedded shallowly:
  * the local filesystem is an association list from absolute path to a
    `FileState` (a readable file with content and modification time, or an
    unreadable entry modelling an I/O failure distinct from non-existence);
  * `sha256` is an abstract digest parameter `String → String` — the code
    only uses it through equality of digests;
  * the per-run download-and-classify loop (lines 214–230 of the source),
    the changed-file resolution step (lines 240–269), the write loop
    (lines 276–294) and the summary loop (lines 299–329) are translated as
    `classifyE`, `resolveChanged`, `writeFiles` and `reportLines`;
  * `runBoilerplate` chains them exactly as the source does from the
    empty-manifest early exit (line 193) onward.
-/

namespace CigLoop

/-- A remote manifest entry: relative path plus downloaded content
(source: the `FileEntry` type, line 209). -/
structure FileEntry where
  relativePath : String
  content : String
deriving DecidableEq, Repr

/-- A local file on disk: its byte content and a modification time.  The
mtime is metadata the engine never reads; it is carried to state
metadata-independence. -/
structure LocalFile where
  content : String
  mtime : Nat
deriving DecidableEq, Repr

/-- A filesystem entry: a readable file, or an entry whose read fails with
an I/O error distinct from non-existence. -/
inductive FileState where
  | readable (file : LocalFile)
  | unreadable
deriving DecidableEq, Repr

/-- The local filesystem: association list from path to file state. -/
abbrev Fs := List (String × FileState)

/-- The mutable state a run touches: files on disk and the set of
directories that exist (recorded by `mkdir -p` calls). -/
structure RunState where
  files : Fs
  dirs : List String
deriving DecidableEq, Repr

/-- Content of the file at `path`, ignoring read errors (`none` when the
file is absent or unreadable). -/
def lookFs (files : Fs) (path : String) : Option LocalFile :=
  match files.lookup path with
  | some (FileState.readable lf) => some lf
  | _ => none

/-- The scanner: `Bun.file(destPath).exists()` / `.text()` collapsed into
one read attempt.  Non-existence is the normal `ok none`; an unreadable
entry raises the error that the source's try/catch at lines 214–235
turns into a hard stop. -/
def scanFs (files : Fs) (path : String) : Except String (Option LocalFile) :=
  match files.lookup path with
  | none => Except.ok none
  | some (FileState.readable lf) => Except.ok (some lf)
  | some FileState.unreadable => Except.error path

/-- `Bun.write(destPath, content)`: replace whatever is at `path`. -/
def fsWrite (files : Fs) (path : String) (lf : LocalFile) : Fs :=
  (path, FileState.readable lf) :: files.filter (fun kv => kv.1 != path)

/-- `mkdir -p`: create a directory if absent, a no-op if present. -/
def mkdirp (dirs : List String) (d : String) : List String :=
  if dirs.contains d then dirs else dirs ++ [d]

/-- The three classification buckets accumulated by the loop at lines
210–230 of the source. -/
structure Classification where
  newFiles : List FileEntry
  identicalFiles : List FileEntry
  changedFiles : List FileEntry
deriving DecidableEq, Repr

/-- The download-and-classify loop (source lines 214–230): for each file in
manifest order, scan the destination; no local file pushes onto
`newFiles`, equal digests push onto `identicalFiles`, different digests
push onto `changedFiles`.  A scan error aborts the whole loop (the
try/catch at lines 231–235). -/
def classifyFrom (sha256 : String → String) (scan : String → Except String (Option LocalFile)) :
    Classification → List FileEntry → Except String Classification
  | acc, [] => Except.ok acc
  | acc, e :: rest =>
    match scan e.relativePath with
    | Except.error msg => Except.error msg
    | Except.ok none =>
        classifyFrom sha256 scan { acc with newFiles := acc.newFiles ++ [e] } rest
    | Except.ok (some lf) =>
        if sha256 e.content = sha256 lf.content then
          classifyFrom sha256 scan { acc with identicalFiles := acc.identicalFiles ++ [e] } rest
        else
          classifyFrom sha256 scan { acc with changedFiles := acc.changedFiles ++ [e] } rest

/-- The classify phase starting from three empty buckets. -/
def classifyE (sha256 : String → String) (scan : String → Except String (Option LocalFile))
    (files : List FileEntry) : Except String Classification :=
  classifyFrom sha256 scan ⟨[], [], []⟩ files

/-- The bucket one entry lands in, as decided at lines 220–229. -/
inductive Bucket where
  | isNew
  | isIdentical
  | isChanged
deriving DecidableEq, Repr

/-- Per-entry classification against a pure local view `look`. -/
def bucketOf (sha256 : String → String) (look : String → Option LocalFile)
    (e : FileEntry) : Bucket :=
  match look e.relativePath with
  | none => Bucket.isNew
  | some lf =>
      if sha256 e.content = sha256 lf.content then Bucket.isIdentical else Bucket.isChanged

/-- Closed form of the classify loop when every scan succeeds: each bucket
is the manifest filtered by its per-entry bucket. -/
def pureClassify (sha256 : String → String) (look : String → Option LocalFile)
    (files : List FileEntry) : Classification :=
  ⟨files.filter (fun e => bucketOf sha256 look e == Bucket.isNew),
   files.filter (fun e => bucketOf sha256 look e == Bucket.isIdentical),
   files.filter (fun e => bucketOf sha256 look e == Bucket.isChanged)⟩

/-- A scanner that never fails, reading from a pure local view. -/
def okScan (look : String → Option LocalFile) (path : String) :
    Except String (Option LocalFile) :=
  Except.ok (look path)

/-- Run mode: non-interactive, or interactive carrying the operator's
answer to the changed-file multiselect (`none` models cancellation). -/
inductive Mode where
  | interactive (response : Option (List String))
  | nonInteractive
deriving Repr

/-- The changed-file resolution step (source lines 240–269).  Returns
`none` on operator cancellation, otherwise the `filesToOverwrite` list.
With no changed files the prompt is never shown and nothing is selected;
in non-interactive mode every changed file is skipped. -/
def resolveChanged (mode : Mode) (changedFiles : List FileEntry) :
    Option (List FileEntry) :=
  if changedFiles.isEmpty then some []
  else
    match mode with
    | Mode.nonInteractive => some []
    | Mode.interactive none => none
    | Mode.interactive (some selected) =>
        some (changedFiles.filter (fun f => selected.contains f.relativePath))

/-- The multiselect prompt shown for changed files (source lines 244–254):
its options and its pre-selected initial values. -/
structure MultiselectPrompt where
  options : List String
  initialValues : List String
deriving DecidableEq, Repr

/-- Construction of the changed-file prompt: options are all changed
paths, and initial values are those ending in "PROMPT.md". -/
def changedPrompt (changedFiles : List FileEntry) : MultiselectPrompt :=
  ⟨changedFiles.map (fun f => f.relativePath),
   (changedFiles.filter (fun f => f.relativePath.endsWith "PROMPT.md")).map
      (fun f => f.relativePath)⟩

/-- `destPath.substring(0, destPath.lastIndexOf "/")` when the path
contains a slash (source lines 282–284): everything before the last
slash, computed on the character list. -/
def parentDir (path : String) : Option String :=
  if path.data.contains '/' then
    some ⟨((path.data.reverse.dropWhile (fun c => c != '/')).drop 1).reverse⟩
  else none

/-- One iteration of the write loop (source lines 279–289): `mkdir -p` the
parent directory, then write the content. -/
def writeOne (outputDir : String) (mtime : Nat) (st : RunState) (f : FileEntry) : RunState :=
  let destPath := outputDir ++ "/" ++ f.relativePath
  let dirs' :=
    match parentDir destPath with
    | some d => mkdirp st.dirs d
    | none => st.dirs
  { files := fsWrite st.files destPath ⟨f.content, mtime⟩, dirs := dirs' }

/-- The write loop over `filesToWrite` (source lines 276–289). -/
def writeFiles (outputDir : String) (mtime : Nat) (st : RunState)
    (filesToWrite : List FileEntry) : RunState :=
  filesToWrite.foldl (writeOne outputDir mtime) st

/-- One summary line's status (source lines 310–328). -/
inductive Status where
  | written
  | skipped
  | unchanged
deriving DecidableEq, Repr

/-- `skippedPaths` (source lines 299–303): paths of changed files not
selected for overwrite. -/
def skippedPathsOf (cls : Classification) (filesToOverwrite : List FileEntry) : List String :=
  (cls.changedFiles.filter (fun f => !(filesToOverwrite.contains f))).map
    (fun f => f.relativePath)

/-- Status of one manifest entry in the summary (source lines 307–328). -/
def statusFor (cls : Classification) (skippedPaths : List String) (file : FileEntry) : Status :=
  if cls.identicalFiles.any (fun f => f.relativePath == file.relativePath) then Status.unchanged
  else if skippedPaths.contains file.relativePath then Status.skipped
  else Status.written

/-- The summary loop (source lines 299–329): one `(destPath, status)` line
per manifest entry, in manifest order. -/
def reportLines (outputDir : String) (files : List FileEntry) (cls : Classification)
    (filesToOverwrite : List FileEntry) : List (String × Status) :=
  files.map (fun file =>
    (outputDir ++ "/" ++ file.relativePath,
     statusFor cls (skippedPathsOf cls filesToOverwrite) file))

/-- Outcome of one run: early exit on an empty manifest (line 193), hard
stop on a scan/download failure (lines 231–235), operator cancellation
(lines 256–259), or completion with the summary. -/
inductive RunResult where
  | emptyManifest (st : RunState)
  | scanFailed (st : RunState) (msg : String)
  | cancelled (st : RunState)
  | done (st : RunState) (report : List (String × Status))
deriving DecidableEq, Repr

/-- The run state at termination, whatever the outcome. -/
def RunResult.finalState : RunResult → RunState
  | RunResult.emptyManifest st => st
  | RunResult.scanFailed st _ => st
  | RunResult.cancelled st => st
  | RunResult.done st _ => st

/-- The scanner a run uses: read at `outputDir/relativePath` (the
`destPath` of line 217). -/
def runScan (files : Fs) (outputDir : String) (relativePath : String) :
    Except String (Option LocalFile) :=
  scanFs files (outputDir ++ "/" ++ relativePath)

/-- The pure local view of a run's scanner, for stating scan-success. -/
def runLook (files : Fs) (outputDir : String) (relativePath : String) : Option LocalFile :=
  lookFs files (outputDir ++ "/" ++ relativePath)

/-- A scanner value determines a pure view: unwrap `ok`, send errors to
`none`. -/
def lookOfScan (scan : String → Except String (Option LocalFile)) (path : String) :
    Option LocalFile :=
  match scan path with
  | Except.ok r => r
  | Except.error _ => none

/-- The reconciliation core of `runBoilerplate` (source lines 193–335):
empty-manifest early exit, `mkdir -p` of the output directory (named after
the chosen boilerplate, line 202), download-and-classify, changed-file
resolution, write phase, and per-file summary. -/
def runBoilerplate (sha256 : String → String) (dirName : String) (files : List FileEntry)
    (mode : Mode) (mtime : Nat) (st : RunState) : RunResult :=
  if files.isEmpty then RunResult.emptyManifest st
  else
    let outputDir := dirName
    let st1 : RunState := { st with dirs := mkdirp st.dirs outputDir }
    match classifyE sha256 (runScan st1.files outputDir) files with
    | Except.error msg => RunResult.scanFailed st1 msg
    | Except.ok cls =>
      match resolveChanged mode cls.changedFiles with
      | none => RunResult.cancelled st1
      | some filesToOverwrite =>
        let filesToWrite := cls.newFiles ++ filesToOverwrite
        let st2 := writeFiles outputDir mtime st1 filesToWrite
        RunResult.done st2 (reportLines outputDir files cls filesToOverwrite)

/-! ### Concrete fixtures used by witnesses and the counterexample -/

/-- Concrete manifest and local view used by the witnesses: `a.txt` exists
locally with identical content, `b.txt` does not exist. -/
def wLook : String → Option LocalFile :=
  fun p => if p = "a.txt" then some ⟨"X", 3⟩ else none

def wManifest : List FileEntry := [⟨"a.txt", "X"⟩, ⟨"b.txt", "Y"⟩]

/-- A second local view for the C2 witness: same content for `a.txt` as
`wLook` but a different modification time. -/
def wLookMeta : String → Option LocalFile :=
  fun p => if p = "a.txt" then some ⟨"X", 99⟩ else none

def wst5 : RunState := ⟨[("tpl/a.txt", FileState.readable ⟨"Q", 0⟩)], []⟩

def wst8 : RunState := ⟨[("tpl/a.txt", FileState.unreadable)], []⟩

def wst5b : RunState := ⟨[("tpl/a.txt", FileState.readable ⟨"Q", 0⟩)], []⟩

def wst7 : RunState := ⟨[("tpl/a.txt", FileState.readable ⟨"Q", 0⟩)], []⟩

def wst7' : RunState :=
  ⟨[("tpl/b.txt", FileState.readable ⟨"Y", 1⟩),
    ("tpl/a.txt", FileState.readable ⟨"Q", 0⟩)], ["tpl"]⟩

/-- The manifest and starting root of the C4 counterexample: the local
`a.txt` diverges from the remote one, and the non-interactive first sync
skips it. -/
def cexManifest : List FileEntry := [⟨"a.txt", "X"⟩]

def cexSt : RunState := ⟨[("tpl/a.txt", FileState.readable ⟨"Q", 0⟩)], []⟩

/-! ### Basic path and filesystem lemmas -/

lemma string_append_left_cancel {s a b : String} (h : s ++ a = s ++ b) : a = b := by
  have hd := congrArg String.data h
  simp only [String.data_append] at hd
  exact String.ext (List.append_cancel_left hd)

lemma destPath_inj {dir a b : String} (h : dir ++ "/" ++ a = dir ++ "/" ++ b) : a = b := by
  have h1 : dir ++ ("/" ++ a) = dir ++ ("/" ++ b) := by
    simpa [String.append_assoc] using h
  exact string_append_left_cancel (string_append_left_cancel h1)

lemma mkdirp_mem_self (dirs : List String) (d : String) : d ∈ mkdirp dirs d := by
  unfold mkdirp
  by_cases h : d ∈ dirs <;> simp [h]

lemma mkdirp_mono {dirs : List String} {d : String} (d' : String) (h : d ∈ dirs) :
    d ∈ mkdirp dirs d' := by
  unfold mkdirp
  by_cases hc : d' ∈ dirs <;> simp [hc, h]

lemma mkdirp_of_mem {dirs : List String} {d : String} (h : d ∈ dirs) :
    mkdirp dirs d = dirs := by
  simp [mkdirp, h]

lemma lookup_filter_ne (fs : Fs) {p q : String} (h : q ≠ p) :
    (fs.filter (fun kv => kv.1 != p)).lookup q = fs.lookup q := by
  induction fs with
  | nil => rfl
  | cons kv rest ih =>
    obtain ⟨k, v⟩ := kv
    by_cases hk : k = p
    · subst hk
      have hq : (q == k) = false := by simp [h]
      simp [List.filter_cons, List.lookup_cons, hq, ih]
    · have : ((k, v).1 != p) = true := by simp [hk]
      by_cases hqk : q = k
      · subst hqk
        simp [List.filter_cons, this, List.lookup_cons]
      · have hq : (q == k) = false := by simp [hqk]
        simp [List.filter_cons, this, List.lookup_cons, hq, ih]

lemma fsWrite_lookup (fs : Fs) (p : String) (lf : LocalFile) (q : String) :
    (fsWrite fs p lf).lookup q =
      if q = p then some (FileState.readable lf) else fs.lookup q := by
  unfold fsWrite
  by_cases h : q = p
  · subst h
    simp [List.lookup_cons]
  · have hq : (q == p) = false := by simp [h]
    simp [List.lookup_cons, hq, h, lookup_filter_ne fs h]

/-! ### Write-loop lemmas -/

lemma writeOne_files (outputDir : String) (mtime : Nat) (st : RunState) (f : FileEntry) :
    (writeOne outputDir mtime st f).files =
      fsWrite st.files (outputDir ++ "/" ++ f.relativePath) ⟨f.content, mtime⟩ := by
  unfold writeOne
  cases parentDir (outputDir ++ "/" ++ f.relativePath) <;> rfl

lemma writeOne_dirs (outputDir : String) (mtime : Nat) (st : RunState) (f : FileEntry) :
    (writeOne outputDir mtime st f).dirs =
      match parentDir (outputDir ++ "/" ++ f.relativePath) with
      | some d => mkdirp st.dirs d
      | none => st.dirs := by
  unfold writeOne
  rfl

lemma writeOne_dirs_mono {st : RunState} {d : String} (outputDir : String) (mtime : Nat)
    (f : FileEntry) (h : d ∈ st.dirs) : d ∈ (writeOne outputDir mtime st f).dirs := by
  rw [writeOne_dirs]
  cases parentDir (outputDir ++ "/" ++ f.relativePath) with
  | none => exact h
  | some pd => exact mkdirp_mono pd h

lemma writeFiles_dirs_mono {st : RunState} {d : String} (outputDir : String) (mtime : Nat)
    (l : List FileEntry) (h : d ∈ st.dirs) :
    d ∈ (writeFiles outputDir mtime st l).dirs := by
  induction l generalizing st with
  | nil => simpa [writeFiles] using h
  | cons f rest ih =>
    simpa [writeFiles, List.foldl_cons] using
      ih (writeOne_dirs_mono outputDir mtime f h)

lemma writeFiles_lookup_notmem {outputDir : String} {mtime : Nat} {l : List FileEntry}
    {st : RunState} {q : String}
    (hq : ∀ f ∈ l, q ≠ outputDir ++ "/" ++ f.relativePath) :
    (writeFiles outputDir mtime st l).files.lookup q = st.files.lookup q := by
  induction l generalizing st with
  | nil => rfl
  | cons f rest ih =>
    have hqf : q ≠ outputDir ++ "/" ++ f.relativePath := hq f (by simp)
    have hrest : ∀ g ∈ rest, q ≠ outputDir ++ "/" ++ g.relativePath :=
      fun g hg => hq g (by simp [hg])
    calc (writeFiles outputDir mtime st (f :: rest)).files.lookup q
        = (writeOne outputDir mtime st f).files.lookup q := by
          simpa [writeFiles, List.foldl_cons] using @ih (writeOne outputDir mtime st f) hrest
      _ = st.files.lookup q := by
          rw [writeOne_files, fsWrite_lookup]
          simp [hqf]

lemma writeFiles_lookup_mem {outputDir : String} {mtime : Nat} {l : List FileEntry}
    {st : RunState} {f : FileEntry}
    (hnd : (l.map FileEntry.relativePath).Nodup) (hf : f ∈ l) :
    (writeFiles outputDir mtime st l).files.lookup (outputDir ++ "/" ++ f.relativePath)
      = some (FileState.readable ⟨f.content, mtime⟩) := by
  induction l generalizing st with
  | nil => cases hf
  | cons g rest ih =>
    rw [List.map_cons, List.nodup_cons] at hnd
    have hnd' : (rest.map FileEntry.relativePath).Nodup := hnd.2
    rcases List.mem_cons.mp hf with hfg | hfr
    · subst hfg
      have hnm : f.relativePath ∉ rest.map FileEntry.relativePath := hnd.1
      have hq : ∀ g ∈ rest,
          outputDir ++ "/" ++ f.relativePath ≠ outputDir ++ "/" ++ g.relativePath := by
        intro g hg habs
        exact hnm (by
          have : f.relativePath = g.relativePath := destPath_inj habs
          rw [this]
          exact List.mem_map_of_mem _ hg)
      have hstep := @writeFiles_lookup_notmem outputDir mtime rest
        (writeOne outputDir mtime st f) (outputDir ++ "/" ++ f.relativePath) hq
      calc (writeFiles outputDir mtime st (f :: rest)).files.lookup
              (outputDir ++ "/" ++ f.relativePath)
          = (writeOne outputDir mtime st f).files.lookup
              (outputDir ++ "/" ++ f.relativePath) := by
            simpa [writeFiles, List.foldl_cons] using hstep
        _ = some (FileState.readable ⟨f.content, mtime⟩) := by
            rw [writeOne_files, fsWrite_lookup]
            simp
    · simpa [writeFiles, List.foldl_cons] using
        @ih (writeOne outputDir mtime st g) hnd' hfr

/-! ### Classification lemmas -/

lemma classifyFrom_ok_scans {sha256 : String → String}
    {scan : String → Except String (Option LocalFile)} {m : List FileEntry}
    {acc cls : Classification}
    (hok : classifyFrom sha256 scan acc m = Except.ok cls) :
    ∀ e ∈ m, ∃ r, scan e.relativePath = Except.ok r := by
  induction m generalizing acc with
  | nil => intro e he; cases he
  | cons e rest ih =>
    intro g hg
    rcases List.mem_cons.mp hg with hge | hgr
    · subst hge
      cases hs : scan g.relativePath with
      | error msg =>
        simp only [classifyFrom, hs] at hok
        exact Except.noConfusion hok
      | ok r => exact ⟨r, rfl⟩
    · cases hs : scan e.relativePath with
      | error msg =>
        simp only [classifyFrom, hs] at hok
        exact Except.noConfusion hok
      | ok r =>
        cases r with
        | none =>
          simp only [classifyFrom, hs] at hok
          exact ih hok g hgr
        | some lf =>
          simp only [classifyFrom, hs] at hok
          by_cases hd : sha256 e.content = sha256 lf.content
          · rw [if_pos hd] at hok; exact ih hok g hgr
          · rw [if_neg hd] at hok; exact ih hok g hgr

lemma classifyFrom_eq_pure {sha256 : String → String}
    {scan : String → Except String (Option LocalFile)} {look : String → Option LocalFile}
    {m : List FileEntry}
    (hscan : ∀ e ∈ m, scan e.relativePath = Except.ok (look e.relativePath)) :
    ∀ acc : Classification,
      classifyFrom sha256 scan acc m =
        Except.ok ⟨acc.newFiles ++ (pureClassify sha256 look m).newFiles,
                   acc.identicalFiles ++ (pureClassify sha256 look m).identicalFiles,
                   acc.changedFiles ++ (pureClassify sha256 look m).changedFiles⟩ := by
  induction m with
  | nil => intro acc; simp [classifyFrom, pureClassify]
  | cons e rest ih =>
    intro acc
    have hse : scan e.relativePath = Except.ok (look e.relativePath) := hscan e (by simp)
    have hrest : ∀ g ∈ rest, scan g.relativePath = Except.ok (look g.relativePath) :=
      fun g hg => hscan g (by simp [hg])
    cases hl : look e.relativePath with
    | none =>
      have hb : bucketOf sha256 look e = Bucket.isNew := by simp [bucketOf, hl]
      rw [hl] at hse
      simp only [classifyFrom, hse]
      rw [ih hrest]
      simp [pureClassify, List.filter_cons, hb]
    | some lf =>
      rw [hl] at hse
      by_cases hd : sha256 e.content = sha256 lf.content
      · have hb : bucketOf sha256 look e = Bucket.isIdentical := by simp [bucketOf, hl, hd]
        simp only [classifyFrom, hse]
        rw [if_pos hd, ih hrest]
        simp [pureClassify, List.filter_cons, hb]
      · have hb : bucketOf sha256 look e = Bucket.isChanged := by simp [bucketOf, hl, hd]
        simp only [classifyFrom, hse]
        rw [if_neg hd, ih hrest]
        simp [pureClassify, List.filter_cons, hb]

lemma classifyE_eq_pure {sha256 : String → String}
    {scan : String → Except String (Option LocalFile)} {look : String → Option LocalFile}
    {m : List FileEntry}
    (hscan : ∀ e ∈ m, scan e.relativePath = Except.ok (look e.relativePath)) :
    classifyE sha256 scan m = Except.ok (pureClassify sha256 look m) := by
  unfold classifyE
  rw [classifyFrom_eq_pure hscan ⟨[], [], []⟩]
  simp

lemma classifyE_okScan (sha256 : String → String) (look : String → Option LocalFile)
    (m : List FileEntry) :
    classifyE sha256 (okScan look) m = Except.ok (pureClassify sha256 look m) :=
  classifyE_eq_pure (fun _ _ => rfl)

lemma classifyE_ok_eq_pure {sha256 : String → String}
    {scan : String → Except String (Option LocalFile)} {m : List FileEntry}
    {cls : Classification} (hok : classifyE sha256 scan m = Except.ok cls) :
    cls = pureClassify sha256 (lookOfScan scan) m := by
  have hscan : ∀ e ∈ m, scan e.relativePath = Except.ok (lookOfScan scan e.relativePath) := by
    intro e he
    obtain ⟨r, hr⟩ := classifyFrom_ok_scans hok e he
    simp [lookOfScan, hr]
  have := @classifyE_eq_pure sha256 scan (lookOfScan scan) m hscan
  rw [hok] at this
  exact (Except.ok.injEq _ _).mp this

lemma classifyFrom_error_of_scan_error {sha256 : String → String}
    {scan : String → Except String (Option LocalFile)} {m : List FileEntry}
    (hbad : ∃ e ∈ m, ∃ msg, scan e.relativePath = Except.error msg) :
    ∀ acc : Classification, ∃ msg, classifyFrom sha256 scan acc m = Except.error msg := by
  induction m with
  | nil => obtain ⟨e, he, _⟩ := hbad; cases he
  | cons e rest ih =>
    intro acc
    cases hs : scan e.relativePath with
    | error msg => exact ⟨msg, by simp only [classifyFrom, hs]⟩
    | ok r =>
      have hbad' : ∃ g ∈ rest, ∃ msg, scan g.relativePath = Except.error msg := by
        obtain ⟨g, hg, msg, hgs⟩ := hbad
        rcases List.mem_cons.mp hg with hge | hgr
        · subst hge; rw [hs] at hgs; cases hgs
        · exact ⟨g, hgr, msg, hgs⟩
      cases r with
      | none =>
        simp only [classifyFrom, hs]
        exact ih hbad' _
      | some lf =>
        simp only [classifyFrom, hs]
        by_cases hd : sha256 e.content = sha256 lf.content
        · rw [if_pos hd]; exact ih hbad' _
        · rw [if_neg hd]; exact ih hbad' _

/-! ### Bucket membership and partition lemmas -/

lemma mem_newFiles_iff {sha256 : String → String} {look : String → Option LocalFile}
    {m : List FileEntry} {e : FileEntry} :
    e ∈ (pureClassify sha256 look m).newFiles ↔
      e ∈ m ∧ bucketOf sha256 look e = Bucket.isNew := by
  simp [pureClassify, List.mem_filter]

lemma mem_identicalFiles_iff {sha256 : String → String} {look : String → Option LocalFile}
    {m : List FileEntry} {e : FileEntry} :
    e ∈ (pureClassify sha256 look m).identicalFiles ↔
      e ∈ m ∧ bucketOf sha256 look e = Bucket.isIdentical := by
  simp [pureClassify, List.mem_filter]

lemma mem_changedFiles_iff {sha256 : String → String} {look : String → Option LocalFile}
    {m : List FileEntry} {e : FileEntry} :
    e ∈ (pureClassify sha256 look m).changedFiles ↔
      e ∈ m ∧ bucketOf sha256 look e = Bucket.isChanged := by
  simp [pureClassify, List.mem_filter]

lemma countP_buckets (sha256 : String → String) (look : String → Option LocalFile)
    (q : FileEntry → Bool) (m : List FileEntry) :
    (pureClassify sha256 look m).newFiles.countP q
      + (pureClassify sha256 look m).identicalFiles.countP q
      + (pureClassify sha256 look m).changedFiles.countP q = m.countP q := by
  induction m with
  | nil => simp [pureClassify]
  | cons e rest ih =>
    simp only [pureClassify, List.filter_cons] at *
    cases hb : bucketOf sha256 look e <;>
      by_cases hq : q e = true <;>
        simp [hb, hq, List.countP_cons] <;> omega

lemma length_buckets (sha256 : String → String) (look : String → Option LocalFile)
    (m : List FileEntry) :
    (pureClassify sha256 look m).newFiles.length
      + (pureClassify sha256 look m).identicalFiles.length
      + (pureClassify sha256 look m).changedFiles.length = m.length := by
  have := countP_buckets sha256 look (fun _ => true) m
  simpa [List.countP_true] using this

lemma new_path_ne_changed {sha256 : String → String} {look : String → Option LocalFile}
    {e1 e2 : FileEntry} (h1 : bucketOf sha256 look e1 = Bucket.isNew)
    (h2 : bucketOf sha256 look e2 ≠ Bucket.isNew) :
    e1.relativePath ≠ e2.relativePath := by
  intro habs
  apply h2
  unfold bucketOf at h1 ⊢
  rw [← habs]
  cases hl : look e1.relativePath with
  | none => rfl
  | some lf =>
    rw [hl] at h1
    simp only [] at h1
    by_cases hd : sha256 e1.content = sha256 lf.content
    · simp [hd] at h1
    · simp [hd] at h1

lemma paths_injOn_of_nodup {m : List FileEntry} {e1 e2 : FileEntry}
    (hnd : (m.map FileEntry.relativePath).Nodup) (h1 : e1 ∈ m) (h2 : e2 ∈ m)
    (hp : e1.relativePath = e2.relativePath) : e1 = e2 :=
  List.inj_on_of_nodup_map hnd h1 h2 hp

/-! ### Resolution and report lemmas -/

lemma resolveChanged_sublist {mode : Mode} {ch ovw : List FileEntry}
    (h : resolveChanged mode ch = some ovw) : ovw.Sublist ch := by
  unfold resolveChanged at h
  by_cases he : ch.isEmpty = true
  · rw [if_pos he] at h
    cases h
    exact List.nil_sublist ch
  · rw [if_neg he] at h
    cases mode with
    | nonInteractive =>
      cases h
      exact List.nil_sublist ch
    | interactive response =>
      cases response with
      | none => cases h
      | some sel =>
        simp only [] at h
        cases h
        exact List.filter_sublist ch

lemma resolveChanged_nonInteractive (ch : List FileEntry) :
    resolveChanged Mode.nonInteractive ch = some [] := by
  unfold resolveChanged
  by_cases he : ch.isEmpty = true <;> simp [he]

lemma resolveChanged_empty (mode : Mode) : resolveChanged mode [] = some [] := by
  simp [resolveChanged]

lemma resolveChanged_cancel {ch : List FileEntry} (hne : ch ≠ []) :
    resolveChanged (Mode.interactive none) ch = none := by
  unfold resolveChanged
  rw [if_neg (by simpa using hne)]

lemma mem_skippedPathsOf {cls : Classification} {ovw : List FileEntry} {p : String} :
    p ∈ skippedPathsOf cls ovw ↔
      ∃ f ∈ cls.changedFiles, f ∉ ovw ∧ f.relativePath = p := by
  simp [skippedPathsOf, List.mem_map, List.mem_filter]
  tauto

lemma statusFor_identical {cls : Classification} {sp : List String} {e : FileEntry}
    (h : ∃ f ∈ cls.identicalFiles, f.relativePath = e.relativePath) :
    statusFor cls sp e = Status.unchanged := by
  unfold statusFor
  rw [if_pos]
  simp only [List.any_eq_true]
  obtain ⟨f, hf, hp⟩ := h
  exact ⟨f, hf, by simp [hp]⟩

lemma statusFor_not_identical {cls : Classification} {sp : List String} {e : FileEntry}
    (h : ∀ f ∈ cls.identicalFiles, f.relativePath ≠ e.relativePath) :
    statusFor cls sp e =
      (if sp.contains e.relativePath then Status.skipped else Status.written) := by
  unfold statusFor
  rw [if_neg (by
    intro habs
    rw [List.any_eq_true] at habs
    obtain ⟨f, hf, hp⟩ := habs
    exact h f hf (by simpa using hp))]

/-! ### Run-level inversion lemmas -/

lemma runBoilerplate_nil (sha256 : String → String) (dirName : String) (mode : Mode)
    (mtime : Nat) (st : RunState) :
    runBoilerplate sha256 dirName [] mode mtime st = RunResult.emptyManifest st := by
  simp [runBoilerplate]

lemma runBoilerplate_ne_nil {files : List FileEntry} (sha256 : String → String)
    (dirName : String) (mode : Mode) (mtime : Nat) (st : RunState) (h : files ≠ []) :
    runBoilerplate sha256 dirName files mode mtime st =
      match classifyE sha256 (runScan st.files dirName) files with
      | Except.error msg =>
          RunResult.scanFailed { st with dirs := mkdirp st.dirs dirName } msg
      | Except.ok cls =>
        match resolveChanged mode cls.changedFiles with
        | none => RunResult.cancelled { st with dirs := mkdirp st.dirs dirName }
        | some ovw =>
            RunResult.done
              (writeFiles dirName mtime { st with dirs := mkdirp st.dirs dirName }
                (cls.newFiles ++ ovw))
              (reportLines dirName files cls ovw) := by
  unfold runBoilerplate
  rw [if_neg (by simpa using h)]

lemma runBoilerplate_done_inv {sha256 : String → String} {dirName : String}
    {files : List FileEntry} {mode : Mode} {mtime : Nat} {st st2 : RunState}
    {rep : List (String × Status)}
    (hrun : runBoilerplate sha256 dirName files mode mtime st = RunResult.done st2 rep) :
    files ≠ [] ∧ ∃ cls ovw,
      classifyE sha256 (runScan st.files dirName) files = Except.ok cls
      ∧ resolveChanged mode cls.changedFiles = some ovw
      ∧ st2 = writeFiles dirName mtime { st with dirs := mkdirp st.dirs dirName }
          (cls.newFiles ++ ovw)
      ∧ rep = reportLines dirName files cls ovw := by
  have hne : files ≠ [] := by
    intro habs
    subst habs
    rw [runBoilerplate_nil] at hrun
    exact RunResult.noConfusion hrun
  refine ⟨hne, ?_⟩
  rw [runBoilerplate_ne_nil sha256 dirName mode mtime st hne] at hrun
  split at hrun
  · exact RunResult.noConfusion hrun
  · rename_i cls hc
    split at hrun
    · exact RunResult.noConfusion hrun
    · rename_i ovw hr
      obtain ⟨h1, h2⟩ := (RunResult.done.injEq _ _ _ _).mp hrun
      exact ⟨cls, ovw, hc, hr, h1.symm, h2.symm⟩

lemma count_paths_eq_one {m : List FileEntry} {p : String}
    (hnd : (m.map FileEntry.relativePath).Nodup) (hp : p ∈ m.map FileEntry.relativePath) :
    m.countP (fun e => e.relativePath == p) = 1 := by
  have h := List.count_eq_one_of_mem hnd hp
  rw [List.count_eq_countP, List.countP_map] at h
  exact h

lemma bucketOf_congr {sha256 : String → String} {look look' : String → Option LocalFile}
    (h : ∀ p, (look p).map LocalFile.content = (look' p).map LocalFile.content)
    (e : FileEntry) : bucketOf sha256 look e = bucketOf sha256 look' e := by
  unfold bucketOf
  have hp := h e.relativePath
  cases hl : look e.relativePath with
  | none =>
    cases hl' : look' e.relativePath with
    | none => rfl
    | some lf => rw [hl, hl'] at hp; cases hp
  | some lf =>
    cases hl' : look' e.relativePath with
    | none => rw [hl, hl'] at hp; cases hp
    | some lf' =>
      rw [hl, hl'] at hp
      have hc : lf.content = lf'.content := by simpa using hp
      simp [hc]

/-! ### Claim theorems -/

/-- C1: for every remote manifest and target root, classification assigns each
manifest entry to exactly one of the three buckets New, Identical, Changed:
the bucket sizes sum to the manifest size, the union of the buckets is the
manifest, and (given the manifest-uniqueness invariant on relative paths)
every relativePath of the manifest appears in exactly one bucket. -/
theorem classify_partition (sha256 : String → String)
    (scan : String → Except String (Option LocalFile)) (m : List FileEntry)
    (cls : Classification)
    (hok : classifyE sha256 scan m = Except.ok cls)
    (hnd : (m.map FileEntry.relativePath).Nodup) :
    cls.newFiles.length + cls.identicalFiles.length + cls.changedFiles.length = m.length
    ∧ (∀ e : FileEntry,
        e ∈ m ↔ (e ∈ cls.newFiles ∨ e ∈ cls.identicalFiles ∨ e ∈ cls.changedFiles))
    ∧ ∀ p ∈ m.map FileEntry.relativePath,
        cls.newFiles.countP (fun e => e.relativePath == p)
        + cls.identicalFiles.countP (fun e => e.relativePath == p)
        + cls.changedFiles.countP (fun e => e.relativePath == p) = 1 := by
  obtain rfl := classifyE_ok_eq_pure hok
  refine ⟨length_buckets _ _ _, ?_, ?_⟩
  · intro e
    constructor
    · intro he
      cases hb : bucketOf sha256 (lookOfScan scan) e
      · exact Or.inl (mem_newFiles_iff.mpr ⟨he, hb⟩)
      · exact Or.inr (Or.inl (mem_identicalFiles_iff.mpr ⟨he, hb⟩))
      · exact Or.inr (Or.inr (mem_changedFiles_iff.mpr ⟨he, hb⟩))
    · rintro (h | h | h)
      · exact (mem_newFiles_iff.mp h).1
      · exact (mem_identicalFiles_iff.mp h).1
      · exact (mem_changedFiles_iff.mp h).1
  · intro p hp
    rw [countP_buckets sha256 (lookOfScan scan) (fun e => e.relativePath == p) m]
    exact count_paths_eq_one hnd hp

theorem classify_partition_witness :
    (pureClassify id wLook wManifest).newFiles.length
      + (pureClassify id wLook wManifest).identicalFiles.length
      + (pureClassify id wLook wManifest).changedFiles.length = wManifest.length :=
  (classify_partition id (okScan wLook) wManifest (pureClassify id wLook wManifest)
    rfl (by decide)).1

/-- C2: classification of a manifest entry depends only on file content: an
entry with no local file classifies as New; an entry whose local file has
byte-identical content classifies as Identical regardless of metadata such
as the modification time; an entry whose local file has differing content
classifies as Changed (the digest being injective on contents).  Moreover
two local states agreeing on file contents — whatever their mtimes —
classify the whole manifest identically. -/
theorem classify_content_only (sha256 : String → String)
    (hInj : Function.Injective sha256)
    (look look' : String → Option LocalFile) (m : List FileEntry) (e : FileEntry)
    (he : e ∈ m) :
    (∀ cls, classifyE sha256 (okScan look) m = Except.ok cls →
      (look e.relativePath = none → e ∈ cls.newFiles)
      ∧ (∀ lf, look e.relativePath = some lf → lf.content = e.content →
          e ∈ cls.identicalFiles)
      ∧ (∀ lf, look e.relativePath = some lf → lf.content ≠ e.content →
          e ∈ cls.changedFiles))
    ∧ ((∀ p, (look p).map LocalFile.content = (look' p).map LocalFile.content) →
        classifyE sha256 (okScan look) m = classifyE sha256 (okScan look') m) := by
  constructor
  · intro cls hok
    rw [classifyE_okScan] at hok
    obtain rfl := ((Except.ok.injEq _ _).mp hok).symm
    refine ⟨?_, ?_, ?_⟩
    · intro hl
      exact mem_newFiles_iff.mpr ⟨he, by simp [bucketOf, hl]⟩
    · intro lf hl hc
      refine mem_identicalFiles_iff.mpr ⟨he, ?_⟩
      have : sha256 e.content = sha256 lf.content := by rw [hc]
      simp [bucketOf, hl, this]
    · intro lf hl hc
      refine mem_changedFiles_iff.mpr ⟨he, ?_⟩
      have : sha256 e.content ≠ sha256 lf.content := fun habs => hc (hInj habs).symm
      simp [bucketOf, hl, this]
  · intro hagree
    rw [classifyE_okScan, classifyE_okScan]
    have hfil : ∀ b : Bucket,
        m.filter (fun e => bucketOf sha256 look e == b)
          = m.filter (fun e => bucketOf sha256 look' e == b) :=
      fun b => List.filter_congr (fun e _ => by rw [bucketOf_congr hagree e])
    have : pureClassify sha256 look m = pureClassify sha256 look' m := by
      unfold pureClassify
      rw [hfil Bucket.isNew, hfil Bucket.isIdentical, hfil Bucket.isChanged]
    rw [this]

theorem classify_content_only_witness :
    (⟨"a.txt", "X"⟩ : FileEntry) ∈ (pureClassify id wLook wManifest).identicalFiles
    ∧ classifyE id (okScan wLook) wManifest = classifyE id (okScan wLookMeta) wManifest := by
  have h := classify_content_only id (fun a b hab => hab) wLook wLookMeta wManifest
    ⟨"a.txt", "X"⟩ (by decide)
  refine ⟨?_, h.2 (by
    intro p
    unfold wLook wLookMeta
    by_cases hp : p = "a.txt" <;> simp [hp])⟩
  exact ((h.1 (pureClassify id wLook wManifest) rfl).2.1 ⟨"X", 3⟩ (by decide) (by decide))

lemma classifyE_nil (sha256 : String → String)
    (scan : String → Except String (Option LocalFile)) :
    classifyE sha256 scan [] = Except.ok ⟨[], [], []⟩ := rfl

/-- C5: if the operator cancels the Changed-file selection step in
interactive mode (modelled by response `none`, possible exactly when the
changed set is non-empty), the run terminates as `cancelled` with the file
system exactly as before the run — no New or Changed file written — and the
`cancelled` outcome carries no report, so no partial summary is produced. -/
theorem run_cancel_aborts (sha256 : String → String) (dirName : String)
    (m : List FileEntry) (mtime : Nat) (st : RunState) (cls : Classification)
    (hok : classifyE sha256 (runScan st.files dirName) m = Except.ok cls)
    (hch : cls.changedFiles ≠ []) :
    runBoilerplate sha256 dirName m (Mode.interactive none) mtime st
      = RunResult.cancelled { st with dirs := mkdirp st.dirs dirName } := by
  have hne : m ≠ [] := by
    intro habs
    subst habs
    rw [classifyE_nil] at hok
    exact hch (by rw [← ((Except.ok.injEq _ _).mp hok)])
  rw [runBoilerplate_ne_nil sha256 dirName (Mode.interactive none) mtime st hne]
  simp only [hok, resolveChanged_cancel hch]

theorem run_cancel_aborts_witness :
    runBoilerplate id "tpl" [⟨"a.txt", "X"⟩] (Mode.interactive none) 1 wst5
      = RunResult.cancelled { wst5 with dirs := mkdirp wst5.dirs "tpl" } :=
  run_cancel_aborts id "tpl" [⟨"a.txt", "X"⟩] 1 wst5 ⟨[], [], [⟨"a.txt", "X"⟩]⟩
    rfl (by decide)

/-- C8: a local-scan or download failure during classification (an error
distinct from simple non-existence, modelled by an `unreadable` filesystem
entry) makes the classify phase return an error carrying no classification,
and the run hard-stops as `scanFailed` with the filesystem untouched —
before any write occurs. -/
theorem run_scanFailure_aborts (sha256 : String → String) (dirName : String)
    (m : List FileEntry) (mode : Mode) (mtime : Nat) (st : RunState) :
    (∀ msg, classifyE sha256 (runScan st.files dirName) m = Except.error msg →
      runBoilerplate sha256 dirName m mode mtime st
        = RunResult.scanFailed { st with dirs := mkdirp st.dirs dirName } msg)
    ∧ ((∃ e ∈ m, st.files.lookup (dirName ++ "/" ++ e.relativePath)
          = some FileState.unreadable) →
        ∃ msg, classifyE sha256 (runScan st.files dirName) m = Except.error msg) := by
  constructor
  · intro msg herr
    have hne : m ≠ [] := by
      intro habs
      subst habs
      rw [classifyE_nil] at herr
      exact Except.noConfusion herr
    rw [runBoilerplate_ne_nil sha256 dirName mode mtime st hne]
    simp only [herr]
  · intro hbad
    obtain ⟨e, he, hu⟩ := hbad
    have hb : ∃ g ∈ m, ∃ msg, runScan st.files dirName g.relativePath = Except.error msg := by
      refine ⟨e, he, dirName ++ "/" ++ e.relativePath, ?_⟩
      unfold runScan scanFs
      rw [hu]
    exact classifyFrom_error_of_scan_error hb ⟨[], [], []⟩

theorem run_scanFailure_aborts_witness :
    runBoilerplate id "tpl" [⟨"a.txt", "X"⟩] Mode.nonInteractive 1 wst8
      = RunResult.scanFailed { wst8 with dirs := mkdirp wst8.dirs "tpl" } "tpl/a.txt" :=
  (run_scanFailure_aborts id "tpl" [⟨"a.txt", "X"⟩] Mode.nonInteractive 1 wst8).1
    "tpl/a.txt" rfl

/-- C9: the interactive changed-file prompt presents exactly the changed
set (one option per changed file, in order), and a path is pre-selected
(initial value, i.e. default-overwrite) iff it is a changed path ending in
"PROMPT.md"; every other changed file defaults to unselected (skip). -/
theorem changedPrompt_spec (ch : List FileEntry) (p : String) :
    (changedPrompt ch).options = ch.map FileEntry.relativePath
    ∧ (p ∈ (changedPrompt ch).initialValues ↔
        p ∈ ch.map FileEntry.relativePath ∧ p.endsWith "PROMPT.md" = true) := by
  refine ⟨rfl, ?_⟩
  simp only [changedPrompt, List.mem_map, List.mem_filter]
  constructor
  · rintro ⟨f, ⟨hf, hew⟩, rfl⟩
    exact ⟨⟨f, hf, rfl⟩, hew⟩
  · rintro ⟨⟨f, hf, rfl⟩, hew⟩
    exact ⟨f, ⟨hf, hew⟩, rfl⟩

/-- C10: when the manifest is non-empty, the target root — a directory in
the current working directory named after the selected template set — is
created (idempotently) before classification begins, whatever the outcome,
even when zero files end up written; every file the run materializes lives
at `dirName/relativePath` under it; and a run with an empty manifest exits
before the directory is created, leaving the filesystem untouched. -/
theorem run_target_root (sha256 : String → String) (dirName : String)
    (m : List FileEntry) (mode : Mode) (mtime : Nat) (st : RunState) :
    (m = [] → runBoilerplate sha256 dirName m mode mtime st = RunResult.emptyManifest st)
    ∧ (m ≠ [] → dirName ∈ (runBoilerplate sha256 dirName m mode mtime st).finalState.dirs)
    ∧ (dirName ∈ st.dirs → mkdirp st.dirs dirName = st.dirs)
    ∧ (∀ st2 rep, runBoilerplate sha256 dirName m mode mtime st = RunResult.done st2 rep →
        ∀ q, st2.files.lookup q ≠ st.files.lookup q →
          ∃ f ∈ m, q = dirName ++ "/" ++ f.relativePath) := by
  refine ⟨?_, ?_, fun h => mkdirp_of_mem h, ?_⟩
  · intro h
    subst h
    exact runBoilerplate_nil sha256 dirName mode mtime st
  · intro hne
    rw [runBoilerplate_ne_nil sha256 dirName mode mtime st hne]
    cases hclas : classifyE sha256 (runScan st.files dirName) m with
    | error msg =>
      simp only [hclas, RunResult.finalState]
      exact mkdirp_mem_self st.dirs dirName
    | ok cls =>
      cases hres : resolveChanged mode cls.changedFiles with
      | none =>
        simp only [hclas, hres, RunResult.finalState]
        exact mkdirp_mem_self st.dirs dirName
      | some ovw =>
        simp only [hclas, hres, RunResult.finalState]
        exact @writeFiles_dirs_mono { st with dirs := mkdirp st.dirs dirName } dirName
          dirName mtime (cls.newFiles ++ ovw) (mkdirp_mem_self st.dirs dirName)
  · intro st2 rep hrun q hq
    obtain ⟨hne, cls, ovw, hok, hres, hst2, hrep⟩ := runBoilerplate_done_inv hrun
    by_contra habs
    push_neg at habs
    apply hq
    have hnot : ∀ f ∈ cls.newFiles ++ ovw, q ≠ dirName ++ "/" ++ f.relativePath := by
      intro f hf
      rcases List.mem_append.mp hf with hfn | hfo
      · have hfm : f ∈ m := by
          have := classifyE_ok_eq_pure hok
          subst this
          exact (mem_newFiles_iff.mp hfn).1
        exact fun habs' => habs f hfm habs'
      · have hfm : f ∈ m := by
          have hsub := resolveChanged_sublist hres
          have hfc : f ∈ cls.changedFiles := hsub.mem hfo
          have := classifyE_ok_eq_pure hok
          subst this
          exact (mem_changedFiles_iff.mp hfc).1
        exact fun habs' => habs f hfm habs'
    rw [hst2]
    exact writeFiles_lookup_notmem hnot

theorem run_target_root_witness :
    "tpl" ∈ (runBoilerplate id "tpl" [⟨"a.txt", "X"⟩] Mode.nonInteractive 1
      (⟨[], []⟩ : RunState)).finalState.dirs :=
  (run_target_root id "tpl" [⟨"a.txt", "X"⟩] Mode.nonInteractive 1 ⟨[], []⟩).2.1
    (by decide)

/-! ### Per-bucket status lemmas over the summary loop -/

lemma statusFor_pure_identical {sha256 : String → String} {look : String → Option LocalFile}
    {m : List FileEntry} {sp : List String} {e : FileEntry}
    (he : e ∈ (pureClassify sha256 look m).identicalFiles) :
    statusFor (pureClassify sha256 look m) sp e = Status.unchanged :=
  statusFor_identical ⟨e, he, rfl⟩

lemma statusFor_pure_new {sha256 : String → String} {look : String → Option LocalFile}
    {m : List FileEntry} {ovw : List FileEntry} {e : FileEntry}
    (he : e ∈ (pureClassify sha256 look m).newFiles) :
    statusFor (pureClassify sha256 look m)
      (skippedPathsOf (pureClassify sha256 look m) ovw) e = Status.written := by
  obtain ⟨hem, hb⟩ := mem_newFiles_iff.mp he
  rw [statusFor_not_identical]
  · rw [if_neg]
    intro hcon
    have hmem : e.relativePath ∈ skippedPathsOf (pureClassify sha256 look m) ovw := by
      simpa using hcon
    obtain ⟨f, hf, _, hfp⟩ := mem_skippedPathsOf.mp hmem
    obtain ⟨hfm, hfb⟩ := mem_changedFiles_iff.mp hf
    exact new_path_ne_changed hb (by rw [hfb]; simp) hfp.symm
  · intro f hf
    obtain ⟨hfm, hfb⟩ := mem_identicalFiles_iff.mp hf
    exact (new_path_ne_changed hb (by rw [hfb]; simp)).symm

lemma statusFor_pure_changed {sha256 : String → String} {look : String → Option LocalFile}
    {m : List FileEntry} {ovw : List FileEntry} {e : FileEntry}
    (hnd : (m.map FileEntry.relativePath).Nodup)
    (he : e ∈ (pureClassify sha256 look m).changedFiles) :
    statusFor (pureClassify sha256 look m)
      (skippedPathsOf (pureClassify sha256 look m) ovw) e
      = (if e ∈ ovw then Status.written else Status.skipped) := by
  obtain ⟨hem, hb⟩ := mem_changedFiles_iff.mp he
  rw [statusFor_not_identical]
  · by_cases hov : e ∈ ovw
    · rw [if_pos hov, if_neg]
      intro hcon
      have hmem : e.relativePath ∈ skippedPathsOf (pureClassify sha256 look m) ovw := by
        simpa using hcon
      obtain ⟨f, hf, hfo, hfp⟩ := mem_skippedPathsOf.mp hmem
      obtain ⟨hfm, hfb⟩ := mem_changedFiles_iff.mp hf
      have : f = e := paths_injOn_of_nodup hnd hfm hem hfp
      exact hfo (this ▸ hov)
    · rw [if_neg hov, if_pos]
      have hmem : e.relativePath ∈ skippedPathsOf (pureClassify sha256 look m) ovw :=
        mem_skippedPathsOf.mpr ⟨e, he, hov, rfl⟩
      simpa using hmem
  · intro f hf habs
    obtain ⟨hfm, hfb⟩ := mem_identicalFiles_iff.mp hf
    have : f = e := paths_injOn_of_nodup hnd hfm hem habs
    subst this
    rw [hfb] at hb
    exact Bucket.noConfusion hb

/-- New-bucket and overwrite-set destination paths never collide with a
changed file that is not overwritten, nor with an identical file. -/
lemma dest_notmem_writeSet_of_identical {sha256 : String → String}
    {look : String → Option LocalFile} {m ovw : List FileEntry} {e : FileEntry}
    (hnd : (m.map FileEntry.relativePath).Nodup)
    (hovw : ovw.Sublist (pureClassify sha256 look m).changedFiles)
    (he : e ∈ (pureClassify sha256 look m).identicalFiles) {dirName : String} :
    ∀ g ∈ (pureClassify sha256 look m).newFiles ++ ovw,
      dirName ++ "/" ++ e.relativePath ≠ dirName ++ "/" ++ g.relativePath := by
  obtain ⟨hem, hb⟩ := mem_identicalFiles_iff.mp he
  intro g hg habs
  have hpath : e.relativePath = g.relativePath := destPath_inj habs
  rcases List.mem_append.mp hg with hgn | hgo
  · obtain ⟨hgm, hgb⟩ := mem_newFiles_iff.mp hgn
    exact new_path_ne_changed hgb (by rw [hb]; simp) hpath.symm
  · obtain ⟨hgm, hgb⟩ := mem_changedFiles_iff.mp (hovw.mem hgo)
    have : e = g := paths_injOn_of_nodup hnd hem hgm hpath
    subst this
    rw [hb] at hgb
    exact Bucket.noConfusion hgb

lemma dest_notmem_writeSet_of_skipped {sha256 : String → String}
    {look : String → Option LocalFile} {m ovw : List FileEntry} {e : FileEntry}
    (hnd : (m.map FileEntry.relativePath).Nodup)
    (hovw : ovw.Sublist (pureClassify sha256 look m).changedFiles)
    (he : e ∈ (pureClassify sha256 look m).changedFiles) (hno : e ∉ ovw)
    {dirName : String} :
    ∀ g ∈ (pureClassify sha256 look m).newFiles ++ ovw,
      dirName ++ "/" ++ e.relativePath ≠ dirName ++ "/" ++ g.relativePath := by
  obtain ⟨hem, hb⟩ := mem_changedFiles_iff.mp he
  intro g hg habs
  have hpath : e.relativePath = g.relativePath := destPath_inj habs
  rcases List.mem_append.mp hg with hgn | hgo
  · obtain ⟨hgm, hgb⟩ := mem_newFiles_iff.mp hgn
    exact new_path_ne_changed hgb (by rw [hb]; simp) hpath.symm
  · obtain ⟨hgm, hgb⟩ := mem_changedFiles_iff.mp (hovw.mem hgo)
    have : e = g := paths_injOn_of_nodup hnd hem hgm hpath
    exact hno (this ▸ hgo)

/-- The destination paths of the write set are pairwise distinct. -/
lemma writeSet_paths_nodup {sha256 : String → String} {look : String → Option LocalFile}
    {m ovw : List FileEntry}
    (hnd : (m.map FileEntry.relativePath).Nodup)
    (hovw : ovw.Sublist (pureClassify sha256 look m).changedFiles) :
    (((pureClassify sha256 look m).newFiles ++ ovw).map FileEntry.relativePath).Nodup := by
  rw [List.map_append]
  refine List.Nodup.append ?_ ?_ ?_
  · exact ((List.filter_sublist m).map FileEntry.relativePath).nodup hnd
  · exact ((hovw.trans (List.filter_sublist m)).map FileEntry.relativePath).nodup hnd
  · intro p hpn hpo
    obtain ⟨e, hen, hep⟩ := List.mem_map.mp hpn
    obtain ⟨g, hgo, hgp⟩ := List.mem_map.mp hpo
    obtain ⟨_, hb⟩ := mem_newFiles_iff.mp hen
    obtain ⟨_, hgb⟩ := mem_changedFiles_iff.mp (hovw.mem hgo)
    exact new_path_ne_changed hb (by rw [hgb]; simp) (by rw [hep, hgp])

/-- The summary contains the line of every manifest entry. -/
lemma reportLines_mem (dirName : String) (m : List FileEntry) (cls : Classification)
    (ovw : List FileEntry) {e : FileEntry} (he : e ∈ m) :
    (dirName ++ "/" ++ e.relativePath, statusFor cls (skippedPathsOf cls ovw) e)
      ∈ reportLines dirName m cls ovw := by
  unfold reportLines
  exact List.mem_map_of_mem _ he

/-- C3: in non-interactive mode, whenever classification finds at least one
Changed file, every Changed file resolves to no-overwrite: the run
completes, the local file at each Changed path is untouched, and each
Changed file's line in the final report is `skipped`. -/
theorem run_nonInteractive_skips (sha256 : String → String) (dirName : String)
    (m : List FileEntry) (mtime : Nat) (st : RunState) (cls : Classification)
    (hok : classifyE sha256 (runScan st.files dirName) m = Except.ok cls)
    (hnd : (m.map FileEntry.relativePath).Nodup)
    (hch : cls.changedFiles ≠ []) :
    ∃ st2 rep,
      runBoilerplate sha256 dirName m Mode.nonInteractive mtime st
        = RunResult.done st2 rep
      ∧ ∀ f ∈ cls.changedFiles,
          st2.files.lookup (dirName ++ "/" ++ f.relativePath)
            = st.files.lookup (dirName ++ "/" ++ f.relativePath)
          ∧ (dirName ++ "/" ++ f.relativePath, Status.skipped) ∈ rep := by
  have hne : m ≠ [] := by
    intro habs
    subst habs
    rw [classifyE_nil] at hok
    exact hch (by rw [← ((Except.ok.injEq _ _).mp hok)])
  refine ⟨writeFiles dirName mtime { st with dirs := mkdirp st.dirs dirName }
            (cls.newFiles ++ []),
          reportLines dirName m cls [], ?_, ?_⟩
  · rw [runBoilerplate_ne_nil sha256 dirName Mode.nonInteractive mtime st hne]
    simp only [hok, resolveChanged_nonInteractive]
  · intro f hf
    obtain rfl := classifyE_ok_eq_pure hok
    constructor
    · refine writeFiles_lookup_notmem ?_
      intro g hg
      exact @dest_notmem_writeSet_of_skipped sha256 (lookOfScan (runScan st.files dirName))
        m [] f hnd (List.nil_sublist _) hf (by simp) dirName g hg
    · have hfm : f ∈ m := (mem_changedFiles_iff.mp hf).1
      have hline := @statusFor_pure_changed sha256 (lookOfScan (runScan st.files dirName))
        m [] f hnd hf
      rw [if_neg (by simp)] at hline
      have hmem := reportLines_mem dirName m
        (pureClassify sha256 (lookOfScan (runScan st.files dirName)) m) [] hfm
      rw [hline] at hmem
      exact hmem

theorem run_nonInteractive_skips_witness :
    ∃ st2 rep,
      runBoilerplate id "tpl" [⟨"a.txt", "X"⟩] Mode.nonInteractive 1 wst5b
        = RunResult.done st2 rep
      ∧ ∀ f ∈ (⟨[], [], [⟨"a.txt", "X"⟩]⟩ : Classification).changedFiles,
          st2.files.lookup ("tpl" ++ "/" ++ f.relativePath)
            = wst5b.files.lookup ("tpl" ++ "/" ++ f.relativePath)
          ∧ ("tpl" ++ "/" ++ f.relativePath, Status.skipped) ∈ rep :=
  run_nonInteractive_skips id "tpl" [⟨"a.txt", "X"⟩] 1 wst5b
    ⟨[], [], [⟨"a.txt", "X"⟩]⟩ rfl (by decide) (by decide)

/-- C6: the final report has exactly one status line per manifest entry,
iterated in manifest order: line `i` is for manifest entry `i`, and its
status is `unchanged` for Identical entries, `written` for New entries,
`written` for Changed entries selected for overwrite and `skipped` for
Changed entries not selected — an exhaustive, mutually exclusive mapping
since the buckets partition the manifest. -/
theorem report_per_entry (sha256 : String → String) (look : String → Option LocalFile)
    (dirName : String) (m : List FileEntry) (cls : Classification) (sel : String → Bool)
    (hok : classifyE sha256 (okScan look) m = Except.ok cls)
    (hnd : (m.map FileEntry.relativePath).Nodup) :
    (reportLines dirName m cls
        (cls.changedFiles.filter (fun f => sel f.relativePath))).length = m.length
    ∧ ∀ i : Nat, ∀ e : FileEntry, m[i]? = some e →
        ∃ s, (reportLines dirName m cls
            (cls.changedFiles.filter (fun f => sel f.relativePath)))[i]?
              = some (dirName ++ "/" ++ e.relativePath, s)
          ∧ (e ∈ cls.identicalFiles → s = Status.unchanged)
          ∧ (e ∈ cls.newFiles → s = Status.written)
          ∧ (e ∈ cls.changedFiles →
              s = (if sel e.relativePath then Status.written else Status.skipped)) := by
  rw [classifyE_okScan] at hok
  obtain rfl := ((Except.ok.injEq _ _).mp hok).symm
  constructor
  · simp [reportLines]
  · intro i e hie
    refine ⟨statusFor (pureClassify sha256 look m)
      (skippedPathsOf (pureClassify sha256 look m)
        ((pureClassify sha256 look m).changedFiles.filter
          (fun f => sel f.relativePath))) e, ?_, ?_, ?_, ?_⟩
    · unfold reportLines
      rw [List.getElem?_map, hie]
      rfl
    · intro he
      exact statusFor_pure_identical he
    · intro he
      exact statusFor_pure_new he
    · intro he
      rw [statusFor_pure_changed hnd he]
      have : e ∈ (pureClassify sha256 look m).changedFiles.filter
          (fun f => sel f.relativePath) ↔ sel e.relativePath = true := by
        rw [List.mem_filter]
        exact ⟨fun h => h.2, fun h => ⟨he, h⟩⟩
      by_cases hs : sel e.relativePath = true
      · rw [if_pos (this.mpr hs), if_pos hs]
      · rw [if_neg (fun habs => hs (this.mp habs)), if_neg hs]

theorem report_per_entry_witness :
    (reportLines "tpl" wManifest (pureClassify id wLook wManifest)
        ((pureClassify id wLook wManifest).changedFiles.filter
          (fun f => (fun _ => false) f.relativePath))).length = wManifest.length :=
  (report_per_entry id wLook "tpl" wManifest (pureClassify id wLook wManifest)
    (fun _ => false) rfl (by decide)).1

/-- C7: the Writer materializes exactly the WriteSet — the union of the New
files and the overwrite-approved Changed files: every WriteSet file ends up
on disk with the remote content, while Identical files, non-approved
Changed files, and any path outside the WriteSet keep their previous local
state. -/
theorem run_writeSet_exact (sha256 : String → String) (dirName : String)
    (m : List FileEntry) (mode : Mode) (mtime : Nat) (st st2 : RunState)
    (rep : List (String × Status)) (cls : Classification) (ovw : List FileEntry)
    (hok : classifyE sha256 (runScan st.files dirName) m = Except.ok cls)
    (hres : resolveChanged mode cls.changedFiles = some ovw)
    (hnd : (m.map FileEntry.relativePath).Nodup)
    (hrun : runBoilerplate sha256 dirName m mode mtime st = RunResult.done st2 rep) :
    (∀ f ∈ cls.newFiles ++ ovw,
        st2.files.lookup (dirName ++ "/" ++ f.relativePath)
          = some (FileState.readable ⟨f.content, mtime⟩))
    ∧ (∀ f ∈ cls.identicalFiles,
        st2.files.lookup (dirName ++ "/" ++ f.relativePath)
          = st.files.lookup (dirName ++ "/" ++ f.relativePath))
    ∧ (∀ f ∈ cls.changedFiles, f ∉ ovw →
        st2.files.lookup (dirName ++ "/" ++ f.relativePath)
          = st.files.lookup (dirName ++ "/" ++ f.relativePath))
    ∧ (∀ q : String, (∀ f ∈ cls.newFiles ++ ovw, q ≠ dirName ++ "/" ++ f.relativePath) →
        st2.files.lookup q = st.files.lookup q) := by
  have hsub : ovw.Sublist cls.changedFiles := resolveChanged_sublist hres
  obtain ⟨hne, cls', ovw', hok', hres', hst2, hrep⟩ := runBoilerplate_done_inv hrun
  rw [hok] at hok'
  obtain rfl : cls = cls' := (Except.ok.injEq _ _).mp hok'
  rw [hres] at hres'
  obtain rfl : ovw = ovw' := (Option.some.injEq _ _).mp hres'
  have hpure := classifyE_ok_eq_pure hok
  subst hpure
  subst hst2
  refine ⟨?_, ?_, ?_, ?_⟩
  · intro f hf
    exact writeFiles_lookup_mem (writeSet_paths_nodup hnd hsub) hf
  · intro f hf
    exact writeFiles_lookup_notmem (dest_notmem_writeSet_of_identical hnd hsub hf)
  · intro f hf hno
    exact writeFiles_lookup_notmem (dest_notmem_writeSet_of_skipped hnd hsub hf hno)
  · intro q hq
    exact writeFiles_lookup_notmem hq

theorem run_writeSet_exact_witness :
    wst7'.files.lookup ("tpl" ++ "/" ++ "b.txt") = some (FileState.readable ⟨"Y", 1⟩)
    ∧ wst7'.files.lookup ("tpl" ++ "/" ++ "a.txt")
        = wst7.files.lookup ("tpl" ++ "/" ++ "a.txt") := by
  have h := run_writeSet_exact id "tpl" wManifest Mode.nonInteractive 1 wst7 wst7'
    [("tpl/a.txt", Status.skipped), ("tpl/b.txt", Status.written)]
    ⟨[⟨"b.txt", "Y"⟩], [], [⟨"a.txt", "X"⟩]⟩ [] rfl rfl (by decide) (by decide)
  exact ⟨h.1 ⟨"b.txt", "Y"⟩ (by decide), h.2.2.1 ⟨"a.txt", "X"⟩ (by decide) (by decide)⟩

/-! ### Re-sync (claim C4) -/

lemma bucketOf_identical_inv {sha256 : String → String} {look : String → Option LocalFile}
    {e : FileEntry} (hb : bucketOf sha256 look e = Bucket.isIdentical) :
    ∃ lf, look e.relativePath = some lf ∧ sha256 e.content = sha256 lf.content := by
  unfold bucketOf at hb
  cases hl : look e.relativePath with
  | none =>
    rw [hl] at hb
    exact Bucket.noConfusion hb
  | some lf =>
    rw [hl] at hb
    simp only [] at hb
    by_cases hd : sha256 e.content = sha256 lf.content
    · exact ⟨lf, rfl, hd⟩
    · rw [if_neg hd] at hb
      exact Bucket.noConfusion hb

lemma lookOfScan_runScan_some {files : Fs} {dirName p : String} {lf : LocalFile}
    (h : lookOfScan (runScan files dirName) p = some lf) :
    files.lookup (dirName ++ "/" ++ p) = some (FileState.readable lf) := by
  unfold lookOfScan runScan scanFs at h
  cases hl : files.lookup (dirName ++ "/" ++ p) with
  | none =>
    rw [hl] at h
    simp at h
  | some fst =>
    cases fst with
    | readable lf' =>
      rw [hl] at h
      simp at h
      rw [h]
    | unreadable =>
      rw [hl] at h
      simp at h

lemma runScan_ok_of_readable {files : Fs} {dirName p : String} {lf : LocalFile}
    (h : files.lookup (dirName ++ "/" ++ p) = some (FileState.readable lf)) :
    runScan files dirName p = Except.ok (some lf) := by
  unfold runScan scanFs
  rw [h]

/-- C4 counterexample: syncing `cexManifest` into `cexSt` completes (the
divergent `a.txt` is skipped by the non-interactive default), yet re-syncing
the same manifest into the resulting root classifies `a.txt` as Changed
again — not Identical — so the claim as stated fails on this input. -/
theorem resync_counterexample :
    runBoilerplate id "tpl" cexManifest Mode.nonInteractive 0 cexSt
      = RunResult.done ⟨[("tpl/a.txt", FileState.readable ⟨"Q", 0⟩)], ["tpl"]⟩
          [("tpl/a.txt", Status.skipped)]
    ∧ classifyE id
        (runScan (⟨[("tpl/a.txt", FileState.readable ⟨"Q", 0⟩)], ["tpl"]⟩ : RunState).files
          "tpl")
        cexManifest
      = Except.ok ⟨[], [], [⟨"a.txt", "X"⟩]⟩ :=
  ⟨by decide, rfl⟩

/-- C4 (amended): syncing M into R and syncing the same M into the
resulting root again classifies every file of M as Identical and performs
zero writes — provided the first run's report contains no `skipped` line,
i.e. no Changed file was left unwritten (which the counterexample shows is
necessary).  The second run returns the first run's state unchanged and an
all-`unchanged` report, in any mode and with no prompt (the changed set is
empty). -/
theorem run_resync_identical (sha256 : String → String) (dirName : String)
    (m : List FileEntry) (mode mode' : Mode) (mtime mtime' : Nat) (st st1 : RunState)
    (rep : List (String × Status))
    (hnd : (m.map FileEntry.relativePath).Nodup)
    (hrun : runBoilerplate sha256 dirName m mode mtime st = RunResult.done st1 rep)
    (hns : ∀ l ∈ rep, l.2 ≠ Status.skipped) :
    classifyE sha256 (runScan st1.files dirName) m = Except.ok ⟨[], m, []⟩
    ∧ runBoilerplate sha256 dirName m mode' mtime' st1
        = RunResult.done st1
            (m.map (fun e => (dirName ++ "/" ++ e.relativePath, Status.unchanged))) := by
  obtain ⟨hne, cls, ovw, hok, hres, hst2, hrep⟩ := runBoilerplate_done_inv hrun
  have hsub : ovw.Sublist cls.changedFiles := resolveChanged_sublist hres
  have hpure := classifyE_ok_eq_pure hok
  subst hpure
  subst hrep
  -- every changed file was selected for overwrite, else its line is skipped
  have hall : ∀ f ∈ (pureClassify sha256 (lookOfScan (runScan st.files dirName)) m).changedFiles,
      f ∈ ovw := by
    intro f hf
    by_contra hno
    have hfm : f ∈ m := (mem_changedFiles_iff.mp hf).1
    have hline := @statusFor_pure_changed sha256 (lookOfScan (runScan st.files dirName))
      m ovw f hnd hf
    rw [if_neg hno] at hline
    have hmem := reportLines_mem dirName m
      (pureClassify sha256 (lookOfScan (runScan st.files dirName)) m) ovw hfm
    rw [hline] at hmem
    exact hns _ hmem rfl
  -- after the first run every manifest entry is on disk with matching digest
  have hdisk : ∀ e ∈ m, ∃ lf : LocalFile,
      st1.files.lookup (dirName ++ "/" ++ e.relativePath)
          = some (FileState.readable lf)
      ∧ sha256 e.content = sha256 lf.content := by
    intro e he
    rw [hst2]
    cases hb : bucketOf sha256 (lookOfScan (runScan st.files dirName)) e with
    | isNew =>
      refine ⟨⟨e.content, mtime⟩, ?_, rfl⟩
      exact writeFiles_lookup_mem (writeSet_paths_nodup hnd hsub)
        (List.mem_append.mpr (Or.inl (mem_newFiles_iff.mpr ⟨he, hb⟩)))
    | isChanged =>
      refine ⟨⟨e.content, mtime⟩, ?_, rfl⟩
      exact writeFiles_lookup_mem (writeSet_paths_nodup hnd hsub)
        (List.mem_append.mpr (Or.inr (hall e (mem_changedFiles_iff.mpr ⟨he, hb⟩))))
    | isIdentical =>
      obtain ⟨lf, hlf, hdg⟩ := bucketOf_identical_inv hb
      refine ⟨lf, ?_, hdg⟩
      rw [writeFiles_lookup_notmem
        (dest_notmem_writeSet_of_identical hnd hsub (mem_identicalFiles_iff.mpr ⟨he, hb⟩))]
      exact lookOfScan_runScan_some hlf
  -- the second classification is all-Identical
  have hcls2 : classifyE sha256 (runScan st1.files dirName) m = Except.ok ⟨[], m, []⟩ := by
    have hscan : ∀ e ∈ m, runScan st1.files dirName e.relativePath
        = Except.ok (lookOfScan (runScan st1.files dirName) e.relativePath) := by
      intro e he
      obtain ⟨lf, hlk, _⟩ := hdisk e he
      rw [runScan_ok_of_readable hlk]
      unfold lookOfScan
      rw [runScan_ok_of_readable hlk]
    rw [classifyE_eq_pure hscan]
    have hbuck : ∀ e ∈ m,
        bucketOf sha256 (lookOfScan (runScan st1.files dirName)) e = Bucket.isIdentical := by
      intro e he
      obtain ⟨lf, hlk, hdg⟩ := hdisk e he
      have hl1 : lookOfScan (runScan st1.files dirName) e.relativePath = some lf := by
        unfold lookOfScan
        rw [runScan_ok_of_readable hlk]
      simp [bucketOf, hl1, hdg]
    have h1 : m.filter
        (fun e => bucketOf sha256 (lookOfScan (runScan st1.files dirName)) e
          == Bucket.isNew) = [] :=
      List.filter_eq_nil_iff.mpr (fun e he => by simp [hbuck e he])
    have h2 : m.filter
        (fun e => bucketOf sha256 (lookOfScan (runScan st1.files dirName)) e
          == Bucket.isIdentical) = m :=
      List.filter_eq_self.mpr (fun e he => by simp [hbuck e he])
    have h3 : m.filter
        (fun e => bucketOf sha256 (lookOfScan (runScan st1.files dirName)) e
          == Bucket.isChanged) = [] :=
      List.filter_eq_nil_iff.mpr (fun e he => by simp [hbuck e he])
    unfold pureClassify
    rw [h1, h2, h3]
  -- the output directory already exists after the first run
  have hdirs : dirName ∈ st1.dirs := by
    rw [hst2]
    exact @writeFiles_dirs_mono { st with dirs := mkdirp st.dirs dirName } dirName
      dirName mtime _ (mkdirp_mem_self st.dirs dirName)
  -- the second run's report is all-unchanged
  have hrep2 : reportLines dirName m ⟨[], m, []⟩ []
      = m.map (fun e => (dirName ++ "/" ++ e.relativePath, Status.unchanged)) := by
    unfold reportLines
    refine List.map_congr_left ?_
    intro e he
    rw [statusFor_identical ⟨e, he, rfl⟩]
  refine ⟨hcls2, ?_⟩
  rw [runBoilerplate_ne_nil sha256 dirName mode' mtime' st1 hne]
  simp only [hcls2, resolveChanged_empty]
  rw [mkdirp_of_mem hdirs, hrep2]
  rfl

theorem run_resync_identical_witness :
    classifyE id
        (runScan (⟨[("tpl/a.txt", FileState.readable ⟨"X", 0⟩)], ["tpl"]⟩ : RunState).files
          "tpl")
        [⟨"a.txt", "X"⟩]
      = Except.ok ⟨[], [⟨"a.txt", "X"⟩], []⟩ :=
  (run_resync_identical id "tpl" [⟨"a.txt", "X"⟩] Mode.nonInteractive Mode.nonInteractive 0 1
    ⟨[], []⟩ ⟨[("tpl/a.txt", FileState.readable ⟨"X", 0⟩)], ["tpl"]⟩
    [("tpl/a.txt", Status.written)] (by decide) (by decide) (by decide)).1

end CigLoop
